import Mathlib

/-!
Verification development for the holesail-switchboard repository.

The definitions below are a shallow embedding of the two source modules:
- `src/auth.js` (scrypt password hashing/verification and the in-memory
  session registry with refresh-token rotation), and
- `src/server.js` (entry-list lifecycle handlers for holesail servers and
  clients, validation helpers and JSON persistence).

JavaScript `Map` objects are embedded as association lists with
insertion-order semantics (`mapSet` updates in place, `mapDelete` removes);
`undefined`/missing values are embedded as `Option`; a thrown exception is
embedded as `Except.error`.  Random value generation (UUIDs, refresh tokens)
and the scrypt derivation are nondeterministic or external, so they enter the
definitions as explicit parameters.
-/

namespace Switchboard

/-! ## Association maps with JavaScript `Map` semantics -/

/-- Lookup of the first binding of key `k`, like `Map.prototype.get`. -/
def mapGet (m : List (String × α)) (k : String) : Option α :=
  match m with
  | [] => none
  | (k', v) :: rest => if k' = k then some v else mapGet rest k

/-- Update in place when the key is present, append otherwise, like
`Map.prototype.set` (which preserves the insertion position of an
existing key). -/
def mapSet (m : List (String × α)) (k : String) (v : α) : List (String × α) :=
  match m with
  | [] => [(k, v)]
  | (k', v') :: rest =>
    if k' = k then (k, v) :: rest else (k', v') :: mapSet rest k v

/-- Removal of every binding of key `k`; on maps whose keys are nodup (the
only maps `Map.prototype.delete` can produce) this is exactly deletion of
the unique binding. -/
def mapDelete (m : List (String × α)) (k : String) : List (String × α) :=
  match m with
  | [] => []
  | (k', v) :: rest =>
    if k' = k then mapDelete rest k else (k', v) :: mapDelete rest k

theorem mapDelete_eq_filter (m : List (String × α)) (k : String) :
    mapDelete m k = m.filter (fun p => !(p.1 = k : Bool)) := by
  induction m with
  | nil => rfl
  | cons p rest ih =>
    obtain ⟨k0, v0⟩ := p
    by_cases h0 : k0 = k
    · simp [mapDelete, h0, ih]
    · simp [mapDelete, h0, ih]

/-- Keys of the association list, in insertion order. -/
def mapKeys (m : List (String × α)) : List String :=
  m.map Prod.fst

theorem mapGet_eq_none_iff {m : List (String × α)} {k : String} :
    mapGet m k = none ↔ k ∉ mapKeys m := by
  induction m with
  | nil => simp [mapGet, mapKeys]
  | cons p rest ih =>
    obtain ⟨k', v⟩ := p
    by_cases h : k' = k
    · subst h; simp [mapGet, mapKeys]
    · simp [mapGet, mapKeys, h, ih, Ne.symm h]

theorem mapGet_isSome_iff {m : List (String × α)} {k : String} :
    (mapGet m k).isSome = true ↔ k ∈ mapKeys m := by
  rw [Option.isSome_iff_ne_none]
  constructor
  · intro h
    by_contra hk
    exact h (mapGet_eq_none_iff.mpr hk)
  · intro h hnone
    exact (mapGet_eq_none_iff.mp hnone) h

theorem mem_of_mapGet_eq_some {m : List (String × α)} {k : String} {v : α}
    (h : mapGet m k = some v) : (k, v) ∈ m := by
  induction m with
  | nil => simp [mapGet] at h
  | cons p rest ih =>
    obtain ⟨k', v'⟩ := p
    by_cases hk : k' = k
    · subst hk
      simp [mapGet] at h
      simp [h]
    · simp [mapGet, hk] at h
      exact List.mem_cons_of_mem _ (ih h)

theorem mapGet_eq_some_of_mem {m : List (String × α)} {k : String} {v : α}
    (hnd : (mapKeys m).Nodup) (h : (k, v) ∈ m) : mapGet m k = some v := by
  induction m with
  | nil => simp at h
  | cons p rest ih =>
    obtain ⟨k', v'⟩ := p
    simp only [mapKeys, List.map_cons, List.nodup_cons] at hnd
    rcases List.mem_cons.mp h with h1 | h1
    · cases h1
      simp [mapGet]
    · have hk : k' ≠ k := by
        intro he
        subst he
        exact hnd.1 (List.mem_map.mpr ⟨(k', v), h1, rfl⟩)
      simp [mapGet, hk]
      exact ih hnd.2 h1

theorem mapGet_set_self (m : List (String × α)) (k : String) (v : α) :
    mapGet (mapSet m k v) k = some v := by
  induction m with
  | nil => simp [mapSet, mapGet]
  | cons p rest ih =>
    obtain ⟨k', v'⟩ := p
    by_cases h : k' = k
    · simp [mapSet, h, mapGet]
    · simp [mapSet, h, mapGet, ih]

theorem mapGet_set_ne (m : List (String × α)) {k k' : String} (v : α)
    (h : k ≠ k') : mapGet (mapSet m k v) k' = mapGet m k' := by
  induction m with
  | nil => simp [mapSet, mapGet, h]
  | cons p rest ih =>
    obtain ⟨k0, v0⟩ := p
    by_cases h0 : k0 = k
    · subst h0
      simp [mapSet, mapGet, h]
    · simp [mapSet, h0, mapGet, ih]

theorem mapGet_delete_self (m : List (String × α)) (k : String) :
    mapGet (mapDelete m k) k = none := by
  rw [mapGet_eq_none_iff, mapDelete_eq_filter]
  intro h
  rcases List.mem_map.mp h with ⟨p, hp, hk⟩
  rcases List.mem_filter.mp hp with ⟨_, hne⟩
  simp [hk] at hne

theorem mapGet_delete_ne (m : List (String × α)) {k k' : String}
    (h : k ≠ k') : mapGet (mapDelete m k) k' = mapGet m k' := by
  induction m with
  | nil => simp [mapDelete, mapGet]
  | cons p rest ih =>
    obtain ⟨k0, v0⟩ := p
    by_cases h0 : k0 = k
    · subst h0
      simp [mapDelete, mapGet, h, ih]
    · simp [mapDelete, mapGet, h0, ih]

theorem mapKeys_set_of_mem {m : List (String × α)} {k : String} (v : α)
    (h : k ∈ mapKeys m) : mapKeys (mapSet m k v) = mapKeys m := by
  induction m with
  | nil => simp [mapKeys] at h
  | cons p rest ih =>
    obtain ⟨k0, v0⟩ := p
    by_cases h0 : k0 = k
    · simp [mapSet, h0, mapKeys]
    · simp only [mapKeys, List.map_cons, List.mem_cons] at h
      rcases h with h | h
      · exact absurd h.symm h0
      · simp only [mapSet, if_neg h0, mapKeys, List.map_cons, List.cons.injEq, true_and]
        exact ih h

theorem mapKeys_set_of_not_mem {m : List (String × α)} {k : String} (v : α)
    (h : k ∉ mapKeys m) : mapKeys (mapSet m k v) = mapKeys m ++ [k] := by
  induction m with
  | nil => simp [mapSet, mapKeys]
  | cons p rest ih =>
    obtain ⟨k0, v0⟩ := p
    simp only [mapKeys, List.map_cons, List.mem_cons] at h
    push_neg at h
    have h0 : k0 ≠ k := fun he => h.1 he.symm
    simp only [mapSet, if_neg h0, mapKeys, List.map_cons, List.cons_append,
      List.cons.injEq, true_and]
    exact ih h.2

theorem mapKeys_set_nodup {m : List (String × α)} {k : String} (v : α)
    (hnd : (mapKeys m).Nodup) : (mapKeys (mapSet m k v)).Nodup := by
  by_cases h : k ∈ mapKeys m
  · rwa [mapKeys_set_of_mem v h]
  · rw [mapKeys_set_of_not_mem v h]
    simpa [List.nodup_append] using ⟨hnd, fun hk => h hk⟩

theorem mapKeys_delete_sublist (m : List (String × α)) (k : String) :
    (mapKeys (mapDelete m k)).Sublist (mapKeys m) := by
  rw [mapDelete_eq_filter]
  exact List.Sublist.map Prod.fst (List.filter_sublist m)

theorem mapKeys_delete_nodup {m : List (String × α)} (k : String)
    (hnd : (mapKeys m).Nodup) : (mapKeys (mapDelete m k)).Nodup :=
  (mapKeys_delete_sublist m k).nodup hnd

theorem not_mem_mapKeys_delete (m : List (String × α)) (k : String) :
    k ∉ mapKeys (mapDelete m k) := by
  rw [mapDelete_eq_filter]
  intro h
  rcases List.mem_map.mp h with ⟨p, hp, hk⟩
  rcases List.mem_filter.mp hp with ⟨_, hne⟩
  simp [hk] at hne

theorem mem_mapKeys_delete {m : List (String × α)} {k k' : String}
    (h : k' ∈ mapKeys (mapDelete m k)) : k' ∈ mapKeys m := by
  rw [mapDelete_eq_filter] at h
  rcases List.mem_map.mp h with ⟨p, hp, hk⟩
  exact List.mem_map.mpr ⟨p, (List.mem_filter.mp hp).1, hk⟩

/-! ## Session registry (src/auth.js)

The scrypt derivation, SHA-256 hashing, UUID generation and random token
generation are external/nondeterministic, so each operation that uses them
takes them as explicit parameters (`hashF`, fresh ids/tokens, the current
UNIX time `now`). -/

/-- Seconds before a refresh token expires: 7 days (src/auth.js line 7). -/
def refreshTokenExpirySeconds : Nat := 7 * 24 * 3600

/-- Maximum number of concurrent sessions (src/auth.js line 8). -/
def maxSessions : Nat := 100

/-- Value stored in `sessionsById` (src/auth.js line 24). -/
structure Session where
  refreshTokenHash : String
  issuedAt : Nat
  refreshExpiresAt : Nat
  deriving DecidableEq, Repr

/-- In-memory state of src/auth.js: the forward map `sessionsById` and the
reverse index `sessionIdByRefreshTokenHash` (lines 24-25). -/
structure Registry where
  sessionsById : List (String × Session)
  sessionIdByRefreshTokenHash : List (String × String)
  deriving DecidableEq, Repr

/-- Result record of `createSession` / `refreshSession`. -/
structure SessionTuple where
  sessionId : String
  refreshToken : String
  refreshExpiresAt : Nat
  deriving DecidableEq, Repr

/-- Embedding of `invalidateSession(sessionId)` (src/auth.js lines 168-174):
delete the reverse-index entry when the session exists and its stored hash is
truthy (a non-empty string), then delete the forward entry. -/
def invalidateSession (reg : Registry) (sessionId : String) : Registry :=
  let reverse :=
    match mapGet reg.sessionsById sessionId with
    | some s =>
      if s.refreshTokenHash ≠ "" then
        mapDelete reg.sessionIdByRefreshTokenHash s.refreshTokenHash
      else
        reg.sessionIdByRefreshTokenHash
    | none => reg.sessionIdByRefreshTokenHash
  { sessionsById := mapDelete reg.sessionsById sessionId
    sessionIdByRefreshTokenHash := reverse }

/-- Embedding of `cleanupExpiredSessions()` (src/auth.js lines 222-229):
invalidate every session whose `refreshExpiresAt` is in the past.  The JS
loop iterates the live `Map` while only ever deleting the entry under the
cursor, so it visits exactly the original entries. -/
def cleanupExpiredSessions (now : Nat) (reg : Registry) : Registry :=
  ((reg.sessionsById.filter (fun p => p.2.refreshExpiresAt < now)).map
    Prod.fst).foldl invalidateSession reg

/-- Embedding of `createSession()` (src/auth.js lines 98-118).  `sessionId`
is the fresh `randomUUID`, `refreshToken` the fresh random token and `hashF`
the SHA-256 hex digest. -/
def createSession (hashF : String → String) (now : Nat)
    (sessionId refreshToken : String) (reg : Registry) :
    Registry × Option SessionTuple :=
  let reg := cleanupExpiredSessions now reg
  if maxSessions ≤ reg.sessionsById.length then
    (reg, none)
  else
    let refreshExpiresAt := now + refreshTokenExpirySeconds
    let refreshTokenHash := hashF refreshToken
    let reg' : Registry :=
      { sessionsById := mapSet reg.sessionsById sessionId
          { refreshTokenHash := refreshTokenHash, issuedAt := now,
            refreshExpiresAt := refreshExpiresAt }
        sessionIdByRefreshTokenHash :=
          mapSet reg.sessionIdByRefreshTokenHash refreshTokenHash sessionId }
    (reg', some { sessionId := sessionId, refreshToken := refreshToken,
                  refreshExpiresAt := refreshExpiresAt })

/-- Embedding of `refreshSession(refreshToken)` (src/auth.js lines 125-162).
`newRefreshToken` is the fresh random token generated on rotation.  The JS
guard `!refreshToken || typeof refreshToken !== 'string'` is the emptiness
check on the embedded string input. -/
def refreshSession (hashF : String → String) (now : Nat)
    (newRefreshToken : String) (reg : Registry) (refreshToken : String) :
    Registry × Option SessionTuple :=
  if refreshToken = "" then
    (reg, none)
  else
    let refreshTokenHash := hashF refreshToken
    match mapGet reg.sessionIdByRefreshTokenHash refreshTokenHash with
    | none => (reg, none)
    | some sessionId =>
      match mapGet reg.sessionsById sessionId with
      | none =>
        ({ reg with sessionIdByRefreshTokenHash :=
            mapDelete reg.sessionIdByRefreshTokenHash refreshTokenHash }, none)
      | some session =>
        if session.refreshExpiresAt < now then
          ({ sessionsById := mapDelete reg.sessionsById sessionId
             sessionIdByRefreshTokenHash :=
               mapDelete reg.sessionIdByRefreshTokenHash refreshTokenHash },
           none)
        else
          let newRefreshTokenHash := hashF newRefreshToken
          let reg' : Registry :=
            { sessionsById := mapSet reg.sessionsById sessionId
                { session with refreshTokenHash := newRefreshTokenHash }
              sessionIdByRefreshTokenHash :=
                mapSet (mapDelete reg.sessionIdByRefreshTokenHash refreshTokenHash)
                  newRefreshTokenHash sessionId }
          (reg', some { sessionId := sessionId, refreshToken := newRefreshToken,
                        refreshExpiresAt := session.refreshExpiresAt })

/-- Embedding of `invalidateAllSessions(exceptSessionId)` (src/auth.js
lines 179-187).  The except id is `none` for the JS default `null`; the JS
truthiness guard makes an empty-string id behave like `null`. -/
def invalidateAllSessions (reg : Registry) (exceptSessionId : Option String) :
    Registry :=
  let kept :=
    match exceptSessionId with
    | none => none
    | some e => if e = "" then none else
        (mapGet reg.sessionsById e).map (fun s => (e, s))
  match kept with
  | none => { sessionsById := [], sessionIdByRefreshTokenHash := [] }
  | some (e, s) =>
    { sessionsById := [(e, s)]
      sessionIdByRefreshTokenHash := [(s.refreshTokenHash, e)] }

/-- Embedding of `invalidateSessionByRefreshToken(refreshToken)`
(src/auth.js lines 193-199). -/
def invalidateSessionByRefreshToken (hashF : String → String)
    (reg : Registry) (refreshToken : String) : Registry :=
  if refreshToken = "" then reg
  else
    match mapGet reg.sessionIdByRefreshTokenHash (hashF refreshToken) with
    | none => reg
    | some sessionId => invalidateSession reg sessionId

/-- Embedding of `isSessionActive(sessionId)` (src/auth.js lines 206-217):
lazy expiry, so the (possibly mutated) registry is returned alongside the
boolean. -/
def isSessionActive (now : Nat) (reg : Registry) (sessionId : String) :
    Registry × Bool :=
  match mapGet reg.sessionsById sessionId with
  | none => (reg, false)
  | some session =>
    if session.refreshExpiresAt < now then
      (invalidateSession reg sessionId, false)
    else
      (reg, true)

/-! ## Credential store (src/auth.js, scrypt hashing) -/

/-- Splitting on a single-character separator, the JS
`String.prototype.split` semantics: `jsSplit "" c = [""]` and separators
delimit possibly-empty segments. -/
def jsSplitAux (sep : Char) : List Char → List Char → List String
  | [], acc => [String.mk acc.reverse]
  | c :: cs, acc =>
    if c = sep then String.mk acc.reverse :: jsSplitAux sep cs []
    else jsSplitAux sep cs (c :: acc)

/-- Embedding of the builtin `s.split(sep)` for a one-character `sep`. -/
def jsSplit (s : String) (sep : Char) : List String :=
  jsSplitAux sep s.data []

/-- The scrypt cost parameters (src/auth.js line 4 holds the defaults). -/
structure ScryptParams where
  bigN : Int
  r : Int
  p : Int
  maxmem : Int
  deriving DecidableEq, Repr

/-- Default scrypt parameters (src/auth.js line 4). -/
def defaultScryptParams : ScryptParams :=
  { bigN := 16384, r := 8, p := 1, maxmem := 64 * 1024 * 1024 }

/-- Length in bytes of the derived key (src/auth.js line 5). -/
def keyLength : Nat := 64

/-- Embedding of the builtin `Number.parseInt(v, 10)`: optional sign, then
the longest prefix of decimal digits; `NaN` (no digits) is `none`.  Stored
records contain no leading whitespace, so whitespace skipping is omitted. -/
def jsParseInt (s : String) : Option Int :=
  let signed : Bool × List Char :=
    match s.data with
    | '-' :: cs => (true, cs)
    | '+' :: cs => (false, cs)
    | cs => (false, cs)
  let digits := signed.2.takeWhile Char.isDigit
  if digits.isEmpty then none
  else
    let n : Nat := digits.foldl (fun acc c => 10 * acc + (c.toNat - '0'.toNat)) 0
    some (if signed.1 then -(n : Int) else (n : Int))

/-- Embedding of the builtin `Number.isSafeInteger` on an already-integral
value: magnitude at most 2^53 - 1. -/
def isSafeInteger (v : Int) : Bool :=
  v.natAbs ≤ 2 ^ 53 - 1

/-- Embedding of `decodeScryptParams(encoded)` (src/auth.js lines 15-21):
split on commas, require exactly four positive safe integers. -/
def decodeScryptParams (encoded : String) : Option ScryptParams :=
  match (jsSplit encoded ',').map jsParseInt with
  | [some n, some r, some p, some m] =>
    if isSafeInteger n ∧ 0 < n ∧ isSafeInteger r ∧ 0 < r ∧
        isSafeInteger p ∧ 0 < p ∧ isSafeInteger m ∧ 0 < m then
      some { bigN := n, r := r, p := p, maxmem := m }
    else none
  | [_, _, _, _] => none
  | _ => none

/-- Value of a hexadecimal digit, as `Buffer.from(-, 'hex')` reads it. -/
def hexDigitVal (c : Char) : Option Nat :=
  if '0' ≤ c ∧ c ≤ '9' then some (c.toNat - '0'.toNat)
  else if 'a' ≤ c ∧ c ≤ 'f' then some (c.toNat - 'a'.toNat + 10)
  else if 'A' ≤ c ∧ c ≤ 'F' then some (c.toNat - 'A'.toNat + 10)
  else none

/-- Byte decoding of `Buffer.from(s, 'hex')`: consume pairs of hex digits,
truncating at the first invalid or incomplete pair. -/
def hexDecodeAux : List Char → List Nat
  | c1 :: c2 :: rest =>
    match hexDigitVal c1, hexDigitVal c2 with
    | some a, some b => (16 * a + b) :: hexDecodeAux rest
    | _, _ => []
  | _ => []

/-- Bytes of `Buffer.from(s, 'hex')`. -/
def hexDecode (s : String) : List Nat :=
  hexDecodeAux s.data

/-- Truthiness of a possibly-undefined JS string: `undefined` and the empty
string are falsy. -/
def jsFalsy : Option String → Bool
  | none => true
  | some s => s = ""

/-- Embedding of `verifyPassword(password, storedHash)` (src/auth.js
lines 71-92).  `scryptF` is the external scrypt derivation
(password, salt bytes, key length, params ↦ derived-key bytes); Node's
`crypto.scrypt` substitutes its defaults when the options argument is
`null`, which is why a failed parse falls back to `defaultScryptParams`.
A thrown exception is `Except.error`: destructuring `storedHash.split(':')`
leaves `paramsEncoded` `undefined` when the record has fewer than three
segments, and `decodeScryptParams` then calls `.split` on `undefined`. -/
def verifyPassword (scryptF : String → List Nat → Nat → ScryptParams → List Nat)
    (password storedHash : String) : Except String Bool :=
  let parts := jsSplit storedHash ':'
  let saltHex := parts.get? 0
  let storedKeyHex := parts.get? 1
  let paramsEncoded := parts.get? 2
  if jsFalsy saltHex ∨ jsFalsy storedKeyHex then
    Except.ok false
  else
    let salt := hexDecode (saltHex.getD "")
    let storedKey := hexDecode (storedKeyHex.getD "")
    match paramsEncoded with
    | none => Except.error "TypeError: encoded.split is not a function"
    | some enc =>
      let params := decodeScryptParams enc
      let derivedKey := scryptF password salt keyLength
        (params.getD defaultScryptParams)
      if derivedKey.length ≠ storedKey.length then
        Except.ok false
      else
        Except.ok (derivedKey = storedKey)

/-! ## Entry lifecycle (src/server.js)

Request bodies are embedded already typed (the JS `typeof` guards on
`secure`/`enabled` and `typeof key === 'string'` are discharged by the
types); ports are `Int` so that the range check is meaningful.  The external
holesail collaborator's `hs.ready()` outcome enters `startServer` /
`startClient` as the parameter `openRes` (`some handle` on success, `none`
on error).  Each handler also returns the chronological list of external
effects it performed, used to settle the ordering claims. -/

/-- Runtime state strings of an entry (src/server.js). -/
inductive EntryState where
  | initializing
  | disabled
  | running
  | failed
  | stopping
  | stopped
  deriving DecidableEq, Repr

/-- In-memory server entry: persisted config fields plus the runtime-only
`state` and `hs` fields (absent on a freshly pushed entry). -/
structure ServerEntry where
  host : String
  port : Int
  key : String
  secure : Bool
  enabled : Bool
  state : Option EntryState
  hs : Option Nat
  deriving DecidableEq, Repr

/-- In-memory client entry. -/
structure ClientEntry where
  key : String
  port : Int
  enabled : Bool
  state : Option EntryState
  hs : Option Nat
  deriving DecidableEq, Repr

/-- The two in-memory entry lists of src/server.js (lines 16-17). -/
structure AppState where
  servers : List ServerEntry
  clients : List ClientEntry
  deriving DecidableEq, Repr

/-- External effects performed by a handler, in chronological order:
closing an old handle, installing a replacement config, writing the data
file, attempting to open a handle. -/
inductive Ev where
  | close (i : Nat)
  | install (i : Nat)
  | save
  | openAttempt (i : Nat)
  deriving DecidableEq, Repr

/-- HTTP responses of the API handlers. -/
inductive Resp where
  | okIdx (index : Nat)
  | okUnit
  | okJson
  | err (code : Nat) (msg : String)
  deriving DecidableEq, Repr

/-- Embedding of `isValidServerKey(key)` (src/server.js lines 20-25): the
empty string, or length in [64, 1000] with the character at position 5 not
the literal character s. -/
def isValidServerKey (key : String) : Bool :=
  key = "" ∨ (64 ≤ key.length ∧ key.length ≤ 1000 ∧ key.data.get? 5 ≠ some 's')

/-- Embedding of `isValidClientKey(key)` (src/server.js lines 27-29). -/
def isValidClientKey (key : String) : Bool :=
  key = "" ∨ "hs://".data.isPrefixOf key.data

/-- Embedding of `isValidPort(port)` (src/server.js lines 31-33). -/
def isValidPort (port : Int) : Bool :=
  0 ≤ port ∧ port ≤ 65535

/-- Embedding of `isValidHost(host)` (src/server.js lines 35-37). -/
def isValidHost (host : String) : Bool :=
  host.length ≤ 255

/-! ### Persistence (saveData, src/server.js lines 40-45) -/

/-- JSON values, for the document written by `saveData` (the file write
itself is external). -/
inductive Json where
  | str (s : String)
  | num (n : Int)
  | bool (b : Bool)
  | arr (xs : List Json)
  | obj (fields : List (String × Json))

/-- Keys of a JSON object (empty for non-objects). -/
def jsonKeys : Json → List String
  | .obj fields => fields.map Prod.fst
  | _ => []

/-- Whether a JSON object has a field named `k`. -/
def jsonHasKey (j : Json) (k : String) : Bool :=
  match j with
  | .obj fields => fields.any (fun p => p.1 = k)
  | _ => false

/-- Serialization of one server entry as written by `saveData`: the spread
`{ ...server, hs: undefined, state: undefined }` overwrites `hs` and
`state` with `undefined`, and `JSON.stringify` drops undefined-valued
properties, leaving exactly the five config fields. -/
def serverPersistJson (e : ServerEntry) : Json :=
  .obj [("host", .str e.host), ("port", .num e.port), ("key", .str e.key),
        ("secure", .bool e.secure), ("enabled", .bool e.enabled)]

/-- Serialization of one client entry as written by `saveData`. -/
def clientPersistJson (e : ClientEntry) : Json :=
  .obj [("key", .str e.key), ("port", .num e.port),
        ("enabled", .bool e.enabled)]

/-- Embedding of `saveData()` (src/server.js lines 40-45): the whole
document written to the data file on every save. -/
def saveData (st : AppState) : Json :=
  .obj [("servers", .arr (st.servers.map serverPersistJson)),
        ("clients", .arr (st.clients.map clientPersistJson))]

/-! ### Start/stop (src/server.js lines 77-161) -/

/-- Embedding of `startServer(index)` (src/server.js lines 77-104).  The
function first writes `state = 'initializing'`; the value observable after
the call resolves is the final one recorded here.  On a failed open the
`hs` field is left untouched (the JS only assigns it on success). -/
def startServer (openRes : Option Nat) (st : AppState) (i : Nat) :
    AppState × List Ev :=
  match st.servers.get? i with
  | none => (st, [])
  | some e =>
    if e.enabled = false then
      ({ st with servers :=
          st.servers.set i ({ e with state := some .disabled }) }, [])
    else
      match openRes with
      | some h =>
        ({ st with servers :=
            st.servers.set i ({ e with state := some .running, hs := some h }) },
         [Ev.openAttempt i])
      | none =>
        ({ st with servers :=
            st.servers.set i ({ e with state := some .failed }) },
         [Ev.openAttempt i])

/-- Embedding of `stopServer(index)` (src/server.js lines 106-118): set
`state` through `'stopping'`, close and drop the handle when present (close
failures are swallowed), end at `'stopped'`.  Callers bounds-check first,
so the out-of-bounds case is unreachable from the handlers. -/
def stopServer (st : AppState) (i : Nat) : AppState × List Ev :=
  match st.servers.get? i with
  | none => (st, [])
  | some e =>
    let evs := if e.hs.isSome then [Ev.close i] else []
    ({ st with servers :=
        st.servers.set i ({ e with state := some .stopped, hs := none }) }, evs)

/-- Embedding of `startClient(index)` (src/server.js lines 121-148). -/
def startClient (openRes : Option Nat) (st : AppState) (i : Nat) :
    AppState × List Ev :=
  match st.clients.get? i with
  | none => (st, [])
  | some e =>
    if e.enabled = false then
      ({ st with clients :=
          st.clients.set i ({ e with state := some .disabled }) }, [])
    else
      match openRes with
      | some h =>
        ({ st with clients :=
            st.clients.set i ({ e with state := some .running, hs := some h }) },
         [Ev.openAttempt i])
      | none =>
        ({ st with clients :=
            st.clients.set i ({ e with state := some .failed }) },
         [Ev.openAttempt i])

/-- Embedding of `stopClient(index)` (src/server.js lines 150-161): close
and drop the handle when present, end at `'stopped'` (no intermediate
`'stopping'` write, unlike `stopServer`). -/
def stopClient (st : AppState) (i : Nat) : AppState × List Ev :=
  match st.clients.get? i with
  | none => (st, [])
  | some e =>
    let evs := if e.hs.isSome then [Ev.close i] else []
    ({ st with clients :=
        st.clients.set i ({ e with state := some .stopped, hs := none }) }, evs)

/-! ### API handlers (src/server.js lines 178-398)

Each handler returns the new application state, the chronological effect
trace and the HTTP response.  The `parseInt`/`NaN`/negativity guard on the
`:index` route parameter is embedded as a `Nat` index together with the
upper-bound check. -/

/-- Request body of POST/PATCH on servers. -/
structure ServerBody where
  host : String
  port : Int
  key : String
  secure : Bool
  enabled : Bool
  deriving DecidableEq, Repr

/-- Request body of POST/PATCH on clients. -/
structure ClientBody where
  key : String
  port : Int
  enabled : Bool
  deriving DecidableEq, Repr

/-- The entry pushed or installed by the server handlers:
`{ host, port, key, secure, enabled }`, with no runtime fields yet. -/
def mkServerEntry (b : ServerBody) : ServerEntry :=
  { host := b.host, port := b.port, key := b.key, secure := b.secure,
    enabled := b.enabled, state := none, hs := none }

/-- The entry pushed or installed by the client handlers. -/
def mkClientEntry (b : ClientBody) : ClientEntry :=
  { key := b.key, port := b.port, enabled := b.enabled,
    state := none, hs := none }

/-- Validation chain of the server handlers (src/server.js lines 199-224),
returning the first 400 error, if any, in source order. -/
def serverBodyError (b : ServerBody) : Option String :=
  if isValidHost b.host = false then some "Invalid host"
  else if isValidPort b.port = false then some "Invalid port"
  else if isValidServerKey b.key = false then
    some "Key must be a string of at least 64 characters"
  else if b.enabled ∧ b.key = "" then
    some "Key is required when server is enabled"
  else if b.enabled ∧ b.host = "" then
    some "Host is required when server is enabled"
  else if b.enabled ∧ b.port = 0 then
    some "Port is required when server is enabled"
  else none

/-- Validation chain of the client handlers (src/server.js lines 310-326). -/
def clientBodyError (b : ClientBody) : Option String :=
  if isValidClientKey b.key = false then some "Key must be a valid HS URL"
  else if isValidPort b.port = false then some "Invalid port"
  else if b.enabled ∧ b.key = "" then
    some "HS URL is required when client is enabled"
  else if b.enabled ∧ b.port = 0 then
    some "Port is required when client is enabled"
  else none

/-- Embedding of the POST /api/servers handler (src/server.js
lines 195-235): validate, push, save, then start. -/
def postServer (openRes : Option Nat) (st : AppState) (b : ServerBody) :
    AppState × List Ev × Resp :=
  match serverBodyError b with
  | some msg => (st, [], .err 400 msg)
  | none =>
    let st1 : AppState := { st with servers := st.servers ++ [mkServerEntry b] }
    let index := st1.servers.length - 1
    let (st2, evs) := startServer openRes st1 index
    (st2, Ev.save :: evs, .okIdx index)

/-- Embedding of the PATCH /api/servers/:index handler (src/server.js
lines 238-282): bounds check, validate, stop the old entry, install the new
config, start, and only then save. -/
def patchServer (openRes : Option Nat) (st : AppState) (i : Nat)
    (b : ServerBody) : AppState × List Ev × Resp :=
  if st.servers.length ≤ i then (st, [], .err 404 "Server not found")
  else
    match serverBodyError b with
    | some msg => (st, [], .err 400 msg)
    | none =>
      let (st1, evs1) := stopServer st i
      let st2 : AppState :=
        { st1 with servers := st1.servers.set i (mkServerEntry b) }
      let (st3, evs2) := startServer openRes st2 i
      (st3, evs1 ++ [Ev.install i] ++ evs2 ++ [Ev.save], .okUnit)

/-- Embedding of the DELETE /api/servers/:index handler (src/server.js
lines 285-303): bounds check, stop, splice out, save. -/
def deleteServer (st : AppState) (i : Nat) : AppState × List Ev × Resp :=
  if st.servers.length ≤ i then (st, [], .err 404 "Server not found")
  else
    let (st1, evs1) := stopServer st i
    ({ st1 with servers := st1.servers.eraseIdx i },
     evs1 ++ [Ev.save], .okUnit)

/-- Embedding of the POST /api/clients handler (src/server.js
lines 306-341). -/
def postClient (openRes : Option Nat) (st : AppState) (b : ClientBody) :
    AppState × List Ev × Resp :=
  match clientBodyError b with
  | some msg => (st, [], .err 400 msg)
  | none =>
    let st1 : AppState := { st with clients := st.clients ++ [mkClientEntry b] }
    let index := st1.clients.length - 1
    let (st2, evs) := startClient openRes st1 index
    (st2, Ev.save :: evs, .okIdx index)

/-- Embedding of the PATCH /api/clients/:index handler (src/server.js
lines 344-380): bounds check, validate, stop, install, save, then start —
note the save comes before the start here, unlike the server variant. -/
def patchClient (openRes : Option Nat) (st : AppState) (i : Nat)
    (b : ClientBody) : AppState × List Ev × Resp :=
  if st.clients.length ≤ i then (st, [], .err 404 "Client not found")
  else
    match clientBodyError b with
    | some msg => (st, [], .err 400 msg)
    | none =>
      let (st1, evs1) := stopClient st i
      let st2 : AppState :=
        { st1 with clients := st1.clients.set i (mkClientEntry b) }
      let (st3, evs2) := startClient openRes st2 i
      (st3, evs1 ++ [Ev.install i] ++ [Ev.save] ++ evs2, .okUnit)

/-- Embedding of the DELETE /api/clients/:index handler (src/server.js
lines 383-398). -/
def deleteClient (st : AppState) (i : Nat) : AppState × List Ev × Resp :=
  if st.clients.length ≤ i then (st, [], .err 404 "Client not found")
  else
    let (st1, evs1) := stopClient st i
    ({ st1 with clients := st1.clients.eraseIdx i },
     evs1 ++ [Ev.save], .okUnit)

/-- Embedding of the GET /api/settings handler (src/server.js
lines 178-192): a pure read returning the serialized state, with no state
change and no external effect. -/
def settingsHandler (st : AppState) : AppState × List Ev × Resp :=
  (st, [], .okJson)

/-! ## Authentication gate over the API

The HTTP authentication gate itself is not part of src/server.js; only its
session primitives (src/auth.js) are.  It is therefore modelled from the
spec here and composed with the handlers above. -/

/-- A decoded access token: the session id it is bound to, its expiry time
and whether its signature verifies.  Access tokens are stateless signed
credentials, so the signature check is an abstract boolean. -/
structure AccessToken where
  sid : String
  exp : Nat
  sigOk : Bool
  deriving DecidableEq, Repr

/-- Modelled from the spec: the per-request authentication gate, which is
not in src/server.js (spec section 6: all mutating and settings-read
endpoints require a valid, non-expired access token bound to an active
session whenever a credential record exists; absence of a credential record
means no authentication is required).  The session-activity check is the
src/auth.js `isSessionActive`, including its lazy-expiry mutation of the
registry. -/
def requireAuth (now : Nat) (passwordHash : Option String) (reg : Registry)
    (tok : Option AccessToken) : Registry × Bool :=
  match passwordHash with
  | none => (reg, true)
  | some _ =>
    match tok with
    | none => (reg, false)
    | some t =>
      if t.sigOk ∧ now ≤ t.exp then isSessionActive now reg t.sid
      else (reg, false)

/-- Whether the request carries a valid, non-expired access token bound to
an active session. -/
def validAccess (now : Nat) (reg : Registry) (tok : Option AccessToken) :
    Bool :=
  match tok with
  | none => false
  | some t =>
    t.sigOk && decide (now ≤ t.exp) && (isSessionActive now reg t.sid).2

/-- Modelled from the spec: an endpoint guarded by the authentication gate.
On rejection the request is answered 401 with no state change and no
external effect; otherwise the underlying handler runs. -/
def withAuth (now : Nat) (passwordHash : Option String) (reg : Registry)
    (tok : Option AccessToken) (handler : AppState → AppState × List Ev × Resp)
    (st : AppState) : Registry × AppState × List Ev × Resp :=
  match requireAuth now passwordHash reg tok with
  | (reg', true) => (reg', handler st)
  | (reg', false) => (reg', st, [], .err 401 "Authentication required")

/-- Modelled from the spec: the settings-read endpoint behind the gate. -/
def gatedSettings (now : Nat) (ph : Option String) (reg : Registry)
    (tok : Option AccessToken) (st : AppState) :
    Registry × AppState × List Ev × Resp :=
  withAuth now ph reg tok settingsHandler st

/-- Modelled from the spec: POST /api/servers behind the gate. -/
def gatedPostServer (now : Nat) (ph : Option String) (reg : Registry)
    (tok : Option AccessToken) (openRes : Option Nat) (b : ServerBody)
    (st : AppState) : Registry × AppState × List Ev × Resp :=
  withAuth now ph reg tok (fun s => postServer openRes s b) st

/-- Modelled from the spec: PATCH /api/servers/:index behind the gate. -/
def gatedPatchServer (now : Nat) (ph : Option String) (reg : Registry)
    (tok : Option AccessToken) (openRes : Option Nat) (i : Nat)
    (b : ServerBody) (st : AppState) :
    Registry × AppState × List Ev × Resp :=
  withAuth now ph reg tok (fun s => patchServer openRes s i b) st

/-- Modelled from the spec: DELETE /api/servers/:index behind the gate. -/
def gatedDeleteServer (now : Nat) (ph : Option String) (reg : Registry)
    (tok : Option AccessToken) (i : Nat) (st : AppState) :
    Registry × AppState × List Ev × Resp :=
  withAuth now ph reg tok (fun s => deleteServer s i) st

/-- Modelled from the spec: POST /api/clients behind the gate. -/
def gatedPostClient (now : Nat) (ph : Option String) (reg : Registry)
    (tok : Option AccessToken) (openRes : Option Nat) (b : ClientBody)
    (st : AppState) : Registry × AppState × List Ev × Resp :=
  withAuth now ph reg tok (fun s => postClient openRes s b) st

/-- Modelled from the spec: PATCH /api/clients/:index behind the gate. -/
def gatedPatchClient (now : Nat) (ph : Option String) (reg : Registry)
    (tok : Option AccessToken) (openRes : Option Nat) (i : Nat)
    (b : ClientBody) (st : AppState) :
    Registry × AppState × List Ev × Resp :=
  withAuth now ph reg tok (fun s => patchClient openRes s i b) st

/-- Modelled from the spec: DELETE /api/clients/:index behind the gate. -/
def gatedDeleteClient (now : Nat) (ph : Option String) (reg : Registry)
    (tok : Option AccessToken) (i : Nat) (st : AppState) :
    Registry × AppState × List Ev × Resp :=
  withAuth now ph reg tok (fun s => deleteClient s i) st

/-! ## Helper lemmas -/

theorem lt_length_of_get?_eq_some {l : List α} {i : Nat} {e : α}
    (h : l.get? i = some e) : i < l.length := by
  by_contra hc
  rw [List.get?_eq_none.mpr (by omega)] at h
  cases h

theorem get?_set_of_ne (l : List α) {i j : Nat} (x : α) (h : i ≠ j) :
    (l.set i x).get? j = l.get? j := by
  rw [List.get?_eq_getElem?, List.get?_eq_getElem?, List.getElem?_set_ne h]

theorem get?_eraseIdx_of_lt (l : List α) (i j : Nat) (h : j < i) :
    (l.eraseIdx i).get? j = l.get? j := by
  induction l generalizing i j with
  | nil => simp
  | cons a as ih =>
    cases i with
    | zero => omega
    | succ i =>
      cases j with
      | zero => simp [List.eraseIdx]
      | succ j =>
        simp only [List.eraseIdx, List.get?]
        exact ih i j (by omega)

theorem get?_eraseIdx_of_le (l : List α) (i j : Nat) (h : i ≤ j) :
    (l.eraseIdx i).get? j = l.get? (j + 1) := by
  induction l generalizing i j with
  | nil => simp
  | cons a as ih =>
    cases i with
    | zero => simp [List.eraseIdx]
    | succ i =>
      cases j with
      | zero => omega
      | succ j =>
        simp only [List.eraseIdx, List.get?]
        exact ih i j (by omega)

/-- Reduction of `deleteServer` at a valid index. -/
theorem deleteServer_reduce {st : AppState} {i : Nat} {e : ServerEntry}
    (hE : st.servers.get? i = some e) :
    deleteServer st i =
      ({ st with servers :=
          (st.servers.set i ({ e with state := some .stopped, hs := none })).eraseIdx i },
       (if e.hs.isSome then [Ev.close i] else []) ++ [Ev.save], Resp.okUnit) := by
  have hi : i < st.servers.length := lt_length_of_get?_eq_some hE
  simp only [deleteServer, if_neg (show ¬ st.servers.length ≤ i by omega),
    stopServer, hE]

/-- Reduction of `deleteClient` at a valid index. -/
theorem deleteClient_reduce {st : AppState} {i : Nat} {e : ClientEntry}
    (hE : st.clients.get? i = some e) :
    deleteClient st i =
      ({ st with clients :=
          (st.clients.set i ({ e with state := some .stopped, hs := none })).eraseIdx i },
       (if e.hs.isSome then [Ev.close i] else []) ++ [Ev.save], Resp.okUnit) := by
  have hi : i < st.clients.length := lt_length_of_get?_eq_some hE
  simp only [deleteClient, if_neg (show ¬ st.clients.length ≤ i by omega),
    stopClient, hE]

/-! ## Claims -/

/-- C3 (code_bug): the claim says `verifyPassword` returns false and never
throws on malformed records, but on a record missing the params segment
(two segments, the shape the function's own JSDoc documents as supported)
the code passes `undefined` to `decodeScryptParams`, which throws a
`TypeError`; the embedded function returns an error for every scrypt
oracle. -/
theorem c3_verifyPassword_throws_on_missing_params :
    ∀ scryptF : String → List Nat → Nat → ScryptParams → List Nat,
      verifyPassword scryptF "x" "aa:bb" =
        Except.error "TypeError: encoded.split is not a function" := by
  intro scryptF
  rfl

/-- C2 counterexample: the persisted document written by `saveData` has no
`passwordHash` field at all, already on the empty state. -/
theorem c2_counterexample :
    jsonHasKey (saveData { servers := [], clients := [] }) "passwordHash" =
      false := by
  rfl

/-- C2 (amended): every save writes the whole document with shape
`{ servers, clients }` — with no `passwordHash` field — where each server
entry is `{host, port, key, secure, enabled}`, each client entry is
`{key, port, enabled}`, and the runtime-only fields (`state`, `hs`) are
excluded from what is written. -/
theorem c2_save_shape :
    ∀ st : AppState,
      jsonKeys (saveData st) = ["servers", "clients"] ∧
      jsonHasKey (saveData st) "passwordHash" = false ∧
      (∀ e ∈ st.servers,
        jsonKeys (serverPersistJson e) =
          ["host", "port", "key", "secure", "enabled"] ∧
        jsonHasKey (serverPersistJson e) "state" = false ∧
        jsonHasKey (serverPersistJson e) "hs" = false) ∧
      (∀ e ∈ st.clients,
        jsonKeys (clientPersistJson e) = ["key", "port", "enabled"] ∧
        jsonHasKey (clientPersistJson e) "state" = false ∧
        jsonHasKey (clientPersistJson e) "hs" = false) := by
  intro st
  refine ⟨rfl, rfl, ?_, ?_⟩
  · intro e _
    exact ⟨rfl, rfl, rfl⟩
  · intro e _
    exact ⟨rfl, rfl, rfl⟩

/-- A sample in-memory server entry carrying runtime fields. -/
def sampleServerEntry : ServerEntry :=
  { host := "h", port := 1, key := "", secure := false, enabled := false,
    state := some .running, hs := some 2 }

/-- C2 witness: the amended statement applied to a one-server state. -/
theorem c2_save_shape_witness :
    jsonKeys (serverPersistJson sampleServerEntry) =
      ["host", "port", "key", "secure", "enabled"] ∧
    jsonHasKey (serverPersistJson sampleServerEntry) "state" = false := by
  have h := c2_save_shape { servers := [sampleServerEntry], clients := [] }
  have h2 := h.2.2.1 _ (List.mem_singleton.mpr rfl)
  exact ⟨h2.1, h2.2.1⟩

/-- C6: deleting a valid index `i` from the servers (resp. clients) list
leaves entries below `i` untouched, shifts every entry above `i` down by
exactly one, and shrinks the list length by one. -/
theorem c6_delete_reindex :
    ∀ (st : AppState) (i : Nat),
      (i < st.servers.length →
        ((deleteServer st i).1.servers.length = st.servers.length - 1 ∧
         (∀ j, j < i →
           (deleteServer st i).1.servers.get? j = st.servers.get? j) ∧
         (∀ j, i < j →
           (deleteServer st i).1.servers.get? (j - 1) = st.servers.get? j))) ∧
      (i < st.clients.length →
        ((deleteClient st i).1.clients.length = st.clients.length - 1 ∧
         (∀ j, j < i →
           (deleteClient st i).1.clients.get? j = st.clients.get? j) ∧
         (∀ j, i < j →
           (deleteClient st i).1.clients.get? (j - 1) = st.clients.get? j))) := by
  intro st i
  constructor
  · intro hi
    obtain ⟨e, hE⟩ : ∃ e, st.servers.get? i = some e :=
      ⟨_, List.get?_eq_get hi⟩
    rw [deleteServer_reduce hE]
    refine ⟨?_, ?_, ?_⟩
    · simp [List.length_eraseIdx_of_lt (show i < (st.servers.set i _).length by
        simpa using hi)]
    · intro j hj
      rw [get?_eraseIdx_of_lt _ _ _ hj, get?_set_of_ne _ _ (by omega)]
    · intro j hj
      rw [get?_eraseIdx_of_le _ _ _ (by omega),
        show j - 1 + 1 = j by omega, get?_set_of_ne _ _ (by omega)]
  · intro hi
    obtain ⟨e, hE⟩ : ∃ e, st.clients.get? i = some e :=
      ⟨_, List.get?_eq_get hi⟩
    rw [deleteClient_reduce hE]
    refine ⟨?_, ?_, ?_⟩
    · simp [List.length_eraseIdx_of_lt (show i < (st.clients.set i _).length by
        simpa using hi)]
    · intro j hj
      rw [get?_eraseIdx_of_lt _ _ _ hj, get?_set_of_ne _ _ (by omega)]
    · intro j hj
      rw [get?_eraseIdx_of_le _ _ _ (by omega),
        show j - 1 + 1 = j by omega, get?_set_of_ne _ _ (by omega)]

/-- C6 witness: deleting index 1 of a three-client state drops the length
to two and shifts index 2 down to index 1. -/
theorem c6_delete_reindex_witness :
    (deleteClient
      { servers := [],
        clients := [
          { key := "a", port := 1, enabled := false, state := none, hs := none },
          { key := "b", port := 2, enabled := false, state := none, hs := none },
          { key := "c", port := 3, enabled := false, state := none, hs := none }] }
      1).1.clients.length = 2 ∧
    (deleteClient
      { servers := [],
        clients := [
          { key := "a", port := 1, enabled := false, state := none, hs := none },
          { key := "b", port := 2, enabled := false, state := none, hs := none },
          { key := "c", port := 3, enabled := false, state := none, hs := none }] }
      1).1.clients.get? 1 = some
        { key := "c", port := 3, enabled := false, state := none, hs := none } := by
  have h := (c6_delete_reindex
    { servers := [],
      clients := [
        { key := "a", port := 1, enabled := false, state := none, hs := none },
        { key := "b", port := 2, enabled := false, state := none, hs := none },
        { key := "c", port := 3, enabled := false, state := none, hs := none }] }
    1).2 (by decide)
  refine ⟨h.1, ?_⟩
  have h2 := h.2.2 2 (by decide)
  simpa using h2

/-- The server-key acceptance rule exactly as the claim words it: the empty
string, or length between 64 and 1000 inclusive with the character at
position 5 not the literal character s. -/
def specServerKeyOk (key : String) : Prop :=
  key = "" ∨ (64 ≤ key.length ∧ key.length ≤ 1000 ∧
    ∀ h5 : 5 < key.data.length, key.data.get ⟨5, h5⟩ ≠ 's')

/-- A server body with an invalid key produces a 400 validation error. -/
theorem serverBodyError_some_of_invalid_key {b : ServerBody}
    (hk : isValidServerKey b.key = false) :
    ∃ msg, serverBodyError b = some msg := by
  cases h : serverBodyError b with
  | some msg => exact ⟨msg, rfl⟩
  | none =>
    exfalso
    unfold serverBodyError at h
    split_ifs at h with h1 h2

/-- C9: a key passes `isValidServerKey` exactly when the claim's predicate
holds, and both the create and the replace handlers answer 400 with the
state unchanged and no external effect when the key is invalid. -/
theorem c9_server_key_validation :
    (∀ key, isValidServerKey key = true ↔ specServerKeyOk key) ∧
    (∀ (openRes : Option Nat) (st : AppState) (b : ServerBody),
      isValidServerKey b.key = false →
      ∃ msg, postServer openRes st b = (st, [], Resp.err 400 msg)) ∧
    (∀ (openRes : Option Nat) (st : AppState) (i : Nat) (b : ServerBody),
      isValidServerKey b.key = false → i < st.servers.length →
      ∃ msg, patchServer openRes st i b = (st, [], Resp.err 400 msg)) := by
  refine ⟨?_, ?_, ?_⟩
  · intro key
    unfold isValidServerKey specServerKeyOk
    simp only [Bool.decide_or, Bool.decide_and, Bool.or_eq_true,
      Bool.and_eq_true, decide_eq_true_eq]
    constructor
    · rintro (h | ⟨h64, h1000, h5⟩)
      · exact Or.inl h
      · refine Or.inr ⟨h64, h1000, fun hlt hs => ?_⟩
        rw [List.get?_eq_get hlt] at h5
        exact h5 (by rw [hs])
    · rintro (h | ⟨h64, h1000, h5⟩)
      · exact Or.inl h
      · have hlt : 5 < key.data.length := by
          have : key.length = key.data.length := rfl
          omega
        refine Or.inr ⟨h64, h1000, fun he => ?_⟩
        rw [List.get?_eq_get hlt] at he
        exact h5 hlt (Option.some.inj he)
  · intro openRes st b hk
    obtain ⟨msg, hmsg⟩ := serverBodyError_some_of_invalid_key hk
    exact ⟨msg, by simp [postServer, hmsg]⟩
  · intro openRes st i b hk hi
    obtain ⟨msg, hmsg⟩ := serverBodyError_some_of_invalid_key hk
    exact ⟨msg, by simp [patchServer, hmsg,
      if_neg (show ¬ st.servers.length ≤ i by omega)]⟩

/-- C9 witness: the empty key is accepted, a 64-character key is accepted,
a key with the character s at position 5 is rejected, and the create handler
rejects a body with a too-short key without touching the empty state. -/
theorem c9_server_key_validation_witness :
    isValidServerKey "" = true ∧
    (∃ msg, postServer none { servers := [], clients := [] }
      { host := "h", port := 1, key := "short", secure := false,
        enabled := false } =
      ({ servers := [], clients := [] }, [], Resp.err 400 msg)) := by
  constructor
  · exact (c9_server_key_validation.1 "").mpr (Or.inl rfl)
  · exact c9_server_key_validation.2.1 none { servers := [], clients := [] }
      { host := "h", port := 1, key := "short", secure := false,
        enabled := false } (by decide)

theorem get?_set_self (l : List α) (x : α) {i : Nat} (h : i < l.length) :
    (l.set i x).get? i = some x := by
  rw [List.get?_eq_getElem?, List.getElem?_set_eq_of_lt x h]

/-- The entry present at index `i` after a successful server replace: the
new config with the final runtime state recorded by `startServer`. -/
def patchedServerEntry (openRes : Option Nat) (b : ServerBody) : ServerEntry :=
  if b.enabled then
    match openRes with
    | some h => { mkServerEntry b with state := some .running, hs := some h }
    | none => { mkServerEntry b with state := some .failed }
  else { mkServerEntry b with state := some .disabled }

/-- The entry present at index `i` after a successful client replace. -/
def patchedClientEntry (openRes : Option Nat) (b : ClientBody) : ClientEntry :=
  if b.enabled then
    match openRes with
    | some h => { mkClientEntry b with state := some .running, hs := some h }
    | none => { mkClientEntry b with state := some .failed }
  else { mkClientEntry b with state := some .disabled }

/-- Reduction of `patchServer` at a valid index with a valid body. -/
theorem patchServer_reduce {st : AppState} {i : Nat} {b : ServerBody}
    {e : ServerEntry} (openRes : Option Nat)
    (hE : st.servers.get? i = some e) (hB : serverBodyError b = none) :
    patchServer openRes st i b =
      ({ st with servers := st.servers.set i (patchedServerEntry openRes b) },
       (if e.hs.isSome then [Ev.close i] else []) ++ [Ev.install i] ++
         (if b.enabled then [Ev.openAttempt i] else []) ++ [Ev.save],
       Resp.okUnit) := by
  have hi : i < st.servers.length := lt_length_of_get?_eq_some hE
  have hset : ∀ x : ServerEntry, (st.servers.set i x).get? i = some x :=
    fun x => get?_set_self _ x (by simpa using hi)
  simp only [patchServer, if_neg (show ¬ st.servers.length ≤ i by omega), hB,
    stopServer, hE, startServer, List.set_set, hset]
  by_cases hb : b.enabled
  · cases openRes <;> simp [patchedServerEntry, mkServerEntry, hb]
  · simp [patchedServerEntry, mkServerEntry, hb]

/-- Reduction of `patchClient` at a valid index with a valid body. -/
theorem patchClient_reduce {st : AppState} {i : Nat} {b : ClientBody}
    {e : ClientEntry} (openRes : Option Nat)
    (hE : st.clients.get? i = some e) (hB : clientBodyError b = none) :
    patchClient openRes st i b =
      ({ st with clients := st.clients.set i (patchedClientEntry openRes b) },
       (if e.hs.isSome then [Ev.close i] else []) ++ [Ev.install i] ++
         [Ev.save] ++ (if b.enabled then [Ev.openAttempt i] else []),
       Resp.okUnit) := by
  have hi : i < st.clients.length := lt_length_of_get?_eq_some hE
  have hset : ∀ x : ClientEntry, (st.clients.set i x).get? i = some x :=
    fun x => get?_set_self _ x (by simpa using hi)
  simp only [patchClient, if_neg (show ¬ st.clients.length ≤ i by omega), hB,
    stopClient, hE, startClient, List.set_set, hset]
  by_cases hb : b.enabled
  · cases openRes <;> simp [patchedClientEntry, mkClientEntry, hb]
  · simp [patchedClientEntry, mkClientEntry, hb]

/-- A valid 64-character server key. -/
def sampleKey64 : String := String.mk (List.replicate 64 'a')

/-- A running server entry holding an open handle. -/
def runningServerEntry : ServerEntry :=
  { host := "h", port := 1, key := sampleKey64, secure := false,
    enabled := true, state := some .running, hs := some 3 }

/-- A valid enabled server replacement body. -/
def enabledServerBody : ServerBody :=
  { host := "h", port := 1, key := sampleKey64, secure := false,
    enabled := true }

/-- A running client entry holding an open handle. -/
def runningClientEntry : ClientEntry :=
  { key := "hs://x", port := 2, enabled := true, state := some .running,
    hs := some 4 }

/-- A valid enabled client replacement body. -/
def enabledClientBody : ClientBody :=
  { key := "hs://y", port := 2, enabled := true }

/-- A disabled client entry. -/
def idleClientA : ClientEntry :=
  { key := "hs://x", port := 2, enabled := false, state := none, hs := none }

/-- Another disabled client entry. -/
def idleClientB : ClientEntry :=
  { key := "hs://z", port := 3, enabled := false, state := none, hs := none }

/-- A valid disabled client replacement body. -/
def idleClientBody : ClientBody :=
  { key := "hs://y", port := 2, enabled := false }

/-- C4 counterexample: at a concrete one-server state with an open handle
and a valid enabled replacement body, the server PATCH handler's effect
trace opens the new handle before persisting, not after, so the claimed
close-install-persist-open order is violated. -/
theorem c4_counterexample :
    (patchServer (some 7) { servers := [runningServerEntry], clients := [] }
        0 enabledServerBody).2.1 =
      [Ev.close 0, Ev.install 0, Ev.openAttempt 0, Ev.save] ∧
    (patchServer (some 7) { servers := [runningServerEntry], clients := [] }
        0 enabledServerBody).2.1 ≠
      [Ev.close 0, Ev.install 0, Ev.save, Ev.openAttempt 0] := by
  constructor
  · rfl
  · decide

/-- C4 (amended): a valid server replace performs close-old-handle, install
config, open attempt, and only then persists (the save is the last effect),
while a valid client replace performs close, install, persist, and only
then the open attempt as the claim states. -/
theorem c4_patch_effect_order :
    ∀ (openRes : Option Nat) (st : AppState) (i : Nat),
      (∀ (b : ServerBody) (e : ServerEntry), st.servers.get? i = some e →
        serverBodyError b = none →
        (patchServer openRes st i b).2.1 =
          (if e.hs.isSome then [Ev.close i] else []) ++ [Ev.install i] ++
            (if b.enabled then [Ev.openAttempt i] else []) ++ [Ev.save]) ∧
      (∀ (b : ClientBody) (e : ClientEntry), st.clients.get? i = some e →
        clientBodyError b = none →
        (patchClient openRes st i b).2.1 =
          (if e.hs.isSome then [Ev.close i] else []) ++ [Ev.install i] ++
            [Ev.save] ++ (if b.enabled then [Ev.openAttempt i] else [])) := by
  intro openRes st i
  constructor
  · intro b e hE hB
    rw [patchServer_reduce openRes hE hB]
  · intro b e hE hB
    rw [patchClient_reduce openRes hE hB]

/-- C4 witness: the amended order at a concrete client state. -/
theorem c4_patch_effect_order_witness :
    (patchClient (some 7) { servers := [], clients := [runningClientEntry] }
        0 enabledClientBody).2.1 =
      [Ev.close 0, Ev.install 0, Ev.save, Ev.openAttempt 0] := by
  have h := (c4_patch_effect_order (some 7)
    { servers := [], clients := [runningClientEntry] } 0).2
    enabledClientBody runningClientEntry rfl rfl
  simpa [runningClientEntry, enabledClientBody] using h

/-- C10: a successful replace at index `i` changes nothing but index `i`:
the other list is untouched, both lengths are unchanged, and every entry of
the patched list at an index other than `i` (config fields, runtime state
and handle alike) is unchanged. -/
theorem c10_patch_frame :
    ∀ (openRes : Option Nat) (st : AppState) (i : Nat),
      (∀ (b : ServerBody) (e : ServerEntry), st.servers.get? i = some e →
        serverBodyError b = none →
        (patchServer openRes st i b).2.2 = Resp.okUnit ∧
        (patchServer openRes st i b).1.servers.length = st.servers.length ∧
        (patchServer openRes st i b).1.clients = st.clients ∧
        (∀ j, j ≠ i →
          (patchServer openRes st i b).1.servers.get? j =
            st.servers.get? j)) ∧
      (∀ (b : ClientBody) (e : ClientEntry), st.clients.get? i = some e →
        clientBodyError b = none →
        (patchClient openRes st i b).2.2 = Resp.okUnit ∧
        (patchClient openRes st i b).1.clients.length = st.clients.length ∧
        (patchClient openRes st i b).1.servers = st.servers ∧
        (∀ j, j ≠ i →
          (patchClient openRes st i b).1.clients.get? j =
            st.clients.get? j)) := by
  intro openRes st i
  constructor
  · intro b e hE hB
    rw [patchServer_reduce openRes hE hB]
    refine ⟨rfl, by simp, rfl, ?_⟩
    intro j hj
    exact get?_set_of_ne _ _ (fun he => hj he.symm)
  · intro b e hE hB
    rw [patchClient_reduce openRes hE hB]
    refine ⟨rfl, by simp, rfl, ?_⟩
    intro j hj
    exact get?_set_of_ne _ _ (fun he => hj he.symm)

/-- C10 witness: a concrete two-client replace at index 0 leaves the entry
at index 1 and the servers list unchanged. -/
theorem c10_patch_frame_witness :
    (patchClient none { servers := [], clients := [idleClientA, idleClientB] }
        0 idleClientBody).1.clients.get? 1 = some idleClientB ∧
    (patchClient none { servers := [], clients := [idleClientA, idleClientB] }
        0 idleClientBody).1.servers = [] := by
  have h := (c10_patch_frame none
    { servers := [], clients := [idleClientA, idleClientB] } 0).2
    idleClientBody idleClientA rfl rfl
  exact ⟨(h.2.2.2 1 (by decide)).trans rfl, h.2.2.1⟩

/-- Sweep of a registry with nothing expired is the identity. -/
theorem cleanup_of_no_expired {now : Nat} {reg : Registry}
    (h : ∀ p ∈ reg.sessionsById, ¬ p.2.refreshExpiresAt < now) :
    cleanupExpiredSessions now reg = reg := by
  unfold cleanupExpiredSessions
  have hf : reg.sessionsById.filter
      (fun p => p.2.refreshExpiresAt < now) = [] := by
    rw [List.filter_eq_nil_iff]
    intro p hp
    simpa using h p hp
  rw [hf]
  rfl

/-- C7: when the registry holds `maxSessions` sessions and none is expired,
`createSession` returns the capacity error (the `null` result) and leaves
the registry exactly as it was. -/
theorem c7_createSession_at_capacity :
    ∀ (hashF : String → String) (now : Nat)
      (sessionId refreshToken : String) (reg : Registry),
      reg.sessionsById.length = maxSessions →
      (∀ p ∈ reg.sessionsById, ¬ p.2.refreshExpiresAt < now) →
      createSession hashF now sessionId refreshToken reg = (reg, none) := by
  intro hashF now sid tok reg hlen hexp
  simp only [createSession, cleanup_of_no_expired hexp, hlen,
    if_pos (le_refl maxSessions)]

/-- A registry at capacity: `maxSessions` unexpired sessions. -/
def fullRegistry : Registry :=
  { sessionsById := List.replicate maxSessions
      ("s", { refreshTokenHash := "h", issuedAt := 0, refreshExpiresAt := 10 }),
    sessionIdByRefreshTokenHash := [("h", "s")] }

/-- C7 witness: at the concrete full registry, a create at time 5 is
rejected and mutates nothing. -/
theorem c7_createSession_at_capacity_witness :
    createSession (fun s => s) 5 "sid" "tok" fullRegistry =
      (fullRegistry, none) := by
  apply c7_createSession_at_capacity
  · simp [fullRegistry]
  · intro p hp
    have hd := List.eq_of_mem_replicate (by simpa [fullRegistry] using hp)
    rw [hd]
    decide

/-- C5: refreshing an active, unexpired session with its current token
succeeds, keeping the same sessionId and the original (unextended)
`refreshExpiresAt`; the rotated-away token is then rejected, while any
unexpired (`refreshExpiresAt` not yet passed) never-rotated token is
accepted by the very same first part. -/
theorem c5_refresh_rotation :
    ∀ (hashF : String → String) (now : Nat) (reg : Registry)
      (refreshToken newTok newTok2 sid : String) (s : Session),
      refreshToken ≠ "" →
      mapGet reg.sessionIdByRefreshTokenHash (hashF refreshToken) = some sid →
      mapGet reg.sessionsById sid = some s →
      ¬ s.refreshExpiresAt < now →
      hashF newTok ≠ hashF refreshToken →
      (refreshSession hashF now newTok reg refreshToken).2 =
        some { sessionId := sid, refreshToken := newTok,
               refreshExpiresAt := s.refreshExpiresAt } ∧
      (refreshSession hashF now newTok2
        (refreshSession hashF now newTok reg refreshToken).1
        refreshToken).2 = none := by
  intro hashF now reg tok newTok newTok2 sid s htok hrev hfwd hexp hfresh
  have h1 : refreshSession hashF now newTok reg tok =
      ({ sessionsById := mapSet reg.sessionsById sid
           { s with refreshTokenHash := hashF newTok },
         sessionIdByRefreshTokenHash :=
           mapSet (mapDelete reg.sessionIdByRefreshTokenHash (hashF tok))
             (hashF newTok) sid },
       some { sessionId := sid, refreshToken := newTok,
              refreshExpiresAt := s.refreshExpiresAt }) := by
    simp only [refreshSession, if_neg htok, hrev, hfwd, if_neg hexp]
  refine ⟨by rw [h1], ?_⟩
  rw [h1]
  simp only [refreshSession, if_neg htok, mapGet_set_ne _ _ hfresh,
    mapGet_delete_self]

/-- A one-session registry whose refresh token is old, hashed by prefixing. -/
def oneSessionRegistry : Registry :=
  { sessionsById := [("sid",
      { refreshTokenHash := "#old", issuedAt := 0, refreshExpiresAt := 100 })],
    sessionIdByRefreshTokenHash := [("#old", "sid")] }

/-- C5 witness: rotating the concrete one-session registry at time 50
succeeds with the original expiry, and the burned token then fails. -/
theorem c5_refresh_rotation_witness :
    (refreshSession (fun t => "#" ++ t) 50 "new" oneSessionRegistry
        "old").2 =
      some { sessionId := "sid", refreshToken := "new",
             refreshExpiresAt := 100 } ∧
    (refreshSession (fun t => "#" ++ t) 50 "new2"
        (refreshSession (fun t => "#" ++ t) 50 "new" oneSessionRegistry
          "old").1 "old").2 = none := by
  have h := c5_refresh_rotation (fun t => "#" ++ t) 50 oneSessionRegistry
    "old" "new" "new2" "sid"
    { refreshTokenHash := "#old", issuedAt := 0, refreshExpiresAt := 100 }
    (by decide) (by decide) (by decide) (by decide) (by decide)
  exact h

/-- C1 (spec-modelled): whenever a credential record exists, every gated
endpoint (the settings read and all six mutating handlers run through
`withAuth`) answers 401 with no state change and no external effect to a
request that does not carry a valid, non-expired access token bound to an
active session; when no credential record exists, the gate is transparent,
so no authentication is required. -/
theorem c1_auth_gate :
    ∀ (now : Nat) (ph : Option String) (reg : Registry)
      (tok : Option AccessToken) (st : AppState)
      (handler : AppState → AppState × List Ev × Resp),
      (ph ≠ none → validAccess now reg tok = false →
        withAuth now ph reg tok handler st =
          ((requireAuth now ph reg tok).1, st, [],
           Resp.err 401 "Authentication required")) ∧
      (ph = none →
        withAuth now ph reg tok handler st = (reg, handler st)) := by
  intro now ph reg tok st handler
  constructor
  · intro hph hv
    cases ph with
    | none => exact absurd rfl hph
    | some p =>
      cases tok with
      | none => rfl
      | some t =>
        by_cases hc : t.sigOk = true ∧ now ≤ t.exp
        · rcases hIs : isSessionActive now reg t.sid with ⟨r2, b2⟩
          have hb : b2 = false := by
            have hv' := hv
            simp only [validAccess, hIs] at hv'
            rcases hc with ⟨hs, he⟩
            simpa [hs, he] using hv'
          subst hb
          simp only [withAuth, requireAuth, if_pos hc, hIs]
        · simp only [withAuth, requireAuth, if_neg hc]
  · intro hph
    subst hph
    rfl

/-- C1 witness: with a credential record set and no token supplied, the
gated settings read on the empty state is rejected with 401 and no state
change. -/
theorem c1_auth_gate_witness :
    withAuth 5 (some "pw")
        { sessionsById := [], sessionIdByRefreshTokenHash := [] } none
        settingsHandler { servers := [], clients := [] } =
      ({ sessionsById := [], sessionIdByRefreshTokenHash := [] },
       { servers := [], clients := [] }, [],
       Resp.err 401 "Authentication required") := by
  have h := (c1_auth_gate 5 (some "pw")
    { sessionsById := [], sessionIdByRefreshTokenHash := [] } none
    { servers := [], clients := [] } settingsHandler).1 (by simp) (by decide)
  simpa using h

/-! ## Registry invariant (C8) -/

theorem fst_mem_mapKeys {m : List (String × α)} {p : String × α}
    (h : p ∈ m) : p.1 ∈ mapKeys m :=
  List.mem_map.mpr ⟨p, h, rfl⟩

theorem mapDelete_of_not_mem {m : List (String × α)} {k : String}
    (h : k ∉ mapKeys m) : mapDelete m k = m := by
  induction m with
  | nil => rfl
  | cons p rest ih =>
    obtain ⟨k0, v0⟩ := p
    simp only [mapKeys, List.map_cons, List.mem_cons] at h
    push_neg at h
    have h0 : k0 ≠ k := fun he => h.1 he.symm
    simp [mapDelete, h0, ih h.2]

theorem mem_of_mem_mapDelete {m : List (String × α)} {k : String}
    {p : String × α} (h : p ∈ mapDelete m k) : p ∈ m ∧ p.1 ≠ k := by
  rw [mapDelete_eq_filter] at h
  have h' := List.mem_filter.mp h
  exact ⟨h'.1, by simpa using h'.2⟩

theorem mapSet_of_not_mem {m : List (String × α)} {k : String} (v : α)
    (h : k ∉ mapKeys m) : mapSet m k v = m ++ [(k, v)] := by
  induction m with
  | nil => rfl
  | cons p rest ih =>
    obtain ⟨k0, v0⟩ := p
    simp only [mapKeys, List.map_cons, List.mem_cons] at h
    push_neg at h
    have h0 : k0 ≠ k := fun he => h.1 he.symm
    simp [mapSet, h0, ih h.2]

theorem mem_mapSet_elim {m : List (String × α)} {k : String} {v : α}
    {p : String × α} (hnd : (mapKeys m).Nodup) (hp : p ∈ mapSet m k v) :
    p = (k, v) ∨ (p ∈ m ∧ p.1 ≠ k) := by
  revert hnd hp
  induction m with
  | nil =>
    intro _ hp
    simp only [mapSet, List.mem_singleton] at hp
    exact Or.inl hp
  | cons q rest ih =>
    obtain ⟨k0, v0⟩ := q
    intro hnd hp
    simp only [mapKeys, List.map_cons, List.nodup_cons] at hnd
    by_cases h0 : k0 = k
    · subst h0
      simp [mapSet] at hp
      rcases hp with hp | hp
      · exact Or.inl hp
      · refine Or.inr ⟨List.mem_cons_of_mem _ hp, fun he => ?_⟩
        exact hnd.1 (he ▸ fst_mem_mapKeys hp)
    · simp [mapSet, h0] at hp
      rcases hp with hp | hp
      · exact Or.inr ⟨by simp [hp], by simp [hp, h0]⟩
      · rcases ih hnd.2 hp with h | ⟨hm, hne⟩
        · exact Or.inl h
        · exact Or.inr ⟨List.mem_cons_of_mem _ hm, hne⟩

/-- The registry invariant of the claim: duplicate-free keys on both maps,
every stored session has a non-empty (truthy) refresh token hash that the
reverse index maps back to its session id, and every reverse-index entry
points at a stored session whose hash field is exactly that key. -/
def RegInv (reg : Registry) : Prop :=
  (mapKeys reg.sessionsById).Nodup ∧
  (mapKeys reg.sessionIdByRefreshTokenHash).Nodup ∧
  (∀ p ∈ reg.sessionsById, p.2.refreshTokenHash ≠ "" ∧
    mapGet reg.sessionIdByRefreshTokenHash p.2.refreshTokenHash =
      some p.1) ∧
  (∀ q ∈ reg.sessionIdByRefreshTokenHash,
    ∃ s, mapGet reg.sessionsById q.2 = some s ∧
      s.refreshTokenHash = q.1)

/-- Under the invariant, the stored refresh token hashes are pairwise
distinct. -/
theorem hashes_nodup_of_regInv {reg : Registry} (h : RegInv reg) :
    (reg.sessionsById.map (fun p => p.2.refreshTokenHash)).Nodup := by
  obtain ⟨h1, _, h3, _⟩ := h
  refine List.Nodup.map_on ?_ (h1.of_map Prod.fst)
  intro p hp q hq he
  have hp' := (h3 p hp).2
  have hq' := (h3 q hq).2
  rw [he] at hp'
  have hid : p.1 = q.1 := Option.some.inj (hp'.symm.trans hq')
  have hv : p.2 = q.2 := by
    have hgp := mapGet_eq_some_of_mem h1 hp
    have hgq := mapGet_eq_some_of_mem h1 hq
    rw [hid] at hgp
    exact Option.some.inj (hgp.symm.trans hgq)
  exact Prod.ext hid hv

/-- `invalidateSession` preserves the invariant, with no side conditions. -/
theorem regInv_invalidateSession {reg : Registry} (h : RegInv reg)
    (sid : String) : RegInv (invalidateSession reg sid) := by
  obtain ⟨h1, h2, h3, h4⟩ := h
  cases hG : mapGet reg.sessionsById sid with
  | none =>
    have hnm : sid ∉ mapKeys reg.sessionsById := mapGet_eq_none_iff.mp hG
    simp only [invalidateSession, hG, mapDelete_of_not_mem hnm]
    exact ⟨h1, h2, h3, h4⟩
  | some s =>
    have hmem := mem_of_mapGet_eq_some hG
    obtain ⟨hne, hrev⟩ := h3 _ hmem
    simp only [invalidateSession, hG, if_pos hne]
    refine ⟨mapKeys_delete_nodup _ h1, mapKeys_delete_nodup _ h2, ?_, ?_⟩
    · intro p hp
      obtain ⟨hpm, hpne⟩ := mem_of_mem_mapDelete hp
      obtain ⟨hne', hrev'⟩ := h3 p hpm
      refine ⟨hne', ?_⟩
      have hh : s.refreshTokenHash ≠ p.2.refreshTokenHash := by
        intro he
        rw [← he] at hrev'
        exact hpne (Option.some.inj (hrev'.symm.trans hrev))
      rw [mapGet_delete_ne _ hh]
      exact hrev'
    · intro q hq
      obtain ⟨hqm, hqne⟩ := mem_of_mem_mapDelete hq
      obtain ⟨s', hs', hh⟩ := h4 q hqm
      have hqs : sid ≠ q.2 := by
        intro he
        rw [← he, hG] at hs'
        cases Option.some.inj hs'
        exact hqne (by rw [← hh])
      exact ⟨s', by rw [mapGet_delete_ne _ hqs]; exact hs', hh⟩

/-- Folding `invalidateSession` preserves the invariant. -/
theorem regInv_foldl_invalidate {reg : Registry} (h : RegInv reg)
    (sids : List String) : RegInv (sids.foldl invalidateSession reg) := by
  induction sids generalizing reg with
  | nil => exact h
  | cons sid rest ih => exact ih (regInv_invalidateSession h sid)

/-- `cleanupExpiredSessions` preserves the invariant. -/
theorem regInv_cleanup {reg : Registry} (h : RegInv reg) (now : Nat) :
    RegInv (cleanupExpiredSessions now reg) :=
  regInv_foldl_invalidate h _

/-- `invalidateSessionByRefreshToken` preserves the invariant. -/
theorem regInv_invalidateByToken {reg : Registry} (h : RegInv reg)
    (hashF : String → String) (tok : String) :
    RegInv (invalidateSessionByRefreshToken hashF reg tok) := by
  unfold invalidateSessionByRefreshToken
  by_cases ht : tok = ""
  · rw [if_pos ht]
    exact h
  · rw [if_neg ht]
    cases hG : mapGet reg.sessionIdByRefreshTokenHash (hashF tok) with
    | none => exact h
    | some sid => exact regInv_invalidateSession h sid

/-- `invalidateAllSessions` preserves the invariant. -/
theorem regInv_invalidateAll {reg : Registry} (h : RegInv reg)
    (exceptSessionId : Option String) :
    RegInv (invalidateAllSessions reg exceptSessionId) := by
  obtain ⟨h1, h2, h3, h4⟩ := h
  cases exceptSessionId with
  | none =>
    exact ⟨by simp [invalidateAllSessions, mapKeys],
           by simp [invalidateAllSessions, mapKeys],
           by simp [invalidateAllSessions],
           by simp [invalidateAllSessions]⟩
  | some e =>
    by_cases he : e = ""
    · exact ⟨by simp [invalidateAllSessions, he, mapKeys],
             by simp [invalidateAllSessions, he, mapKeys],
             by simp [invalidateAllSessions, he],
             by simp [invalidateAllSessions, he]⟩
    · cases hG : mapGet reg.sessionsById e with
      | none =>
        exact ⟨by simp [invalidateAllSessions, he, hG, mapKeys],
               by simp [invalidateAllSessions, he, hG, mapKeys],
               by simp [invalidateAllSessions, he, hG],
               by simp [invalidateAllSessions, he, hG]⟩
      | some s =>
        obtain ⟨hne, _⟩ := h3 _ (mem_of_mapGet_eq_some hG)
        refine ⟨?_, ?_, ?_, ?_⟩
        · simp [invalidateAllSessions, he, hG, mapKeys]
        · simp [invalidateAllSessions, he, hG, mapKeys]
        · intro p hp
          simp [invalidateAllSessions, he, hG] at hp ⊢
          subst hp
          exact ⟨hne, by simp [mapGet]⟩
        · intro q hq
          simp [invalidateAllSessions, he, hG] at hq ⊢
          subst hq
          exact ⟨s, by simp [mapGet], rfl⟩

/-- Keys present after an `invalidateSession` were present before. -/
theorem invalidateSession_keys_subset (reg : Registry) (sid : String) :
    (∀ k, k ∈ mapKeys (invalidateSession reg sid).sessionsById →
      k ∈ mapKeys reg.sessionsById) ∧
    (∀ k, k ∈ mapKeys (invalidateSession reg sid).sessionIdByRefreshTokenHash →
      k ∈ mapKeys reg.sessionIdByRefreshTokenHash) := by
  constructor
  · intro k hk
    exact mem_mapKeys_delete hk
  · intro k hk
    cases hG : mapGet reg.sessionsById sid with
    | none =>
      simpa [invalidateSession, hG] using hk
    | some s =>
      by_cases hne : s.refreshTokenHash = ""
      · simpa [invalidateSession, hG, hne] using hk
      · simp [invalidateSession, hG, hne] at hk
        exact mem_mapKeys_delete hk

/-- Keys present after the expiry sweep were present before. -/
theorem cleanup_keys_subset (now : Nat) (reg : Registry) :
    (∀ k, k ∈ mapKeys (cleanupExpiredSessions now reg).sessionsById →
      k ∈ mapKeys reg.sessionsById) ∧
    (∀ k,
      k ∈ mapKeys (cleanupExpiredSessions now reg).sessionIdByRefreshTokenHash →
      k ∈ mapKeys reg.sessionIdByRefreshTokenHash) := by
  unfold cleanupExpiredSessions
  generalize (reg.sessionsById.filter
    (fun p => p.2.refreshExpiresAt < now)).map Prod.fst = sids
  induction sids generalizing reg with
  | nil => exact ⟨fun _ h => h, fun _ h => h⟩
  | cons sid rest ih =>
    refine ⟨fun k hk => ?_, fun k hk => ?_⟩
    · exact (invalidateSession_keys_subset reg sid).1 k
        ((ih (invalidateSession reg sid)).1 k hk)
    · exact (invalidateSession_keys_subset reg sid).2 k
        ((ih (invalidateSession reg sid)).2 k hk)

/-- `createSession` preserves the invariant when the fresh session id and
the fresh token hash do not collide with stored ones and the hash is
non-empty. -/
theorem regInv_createSession {reg : Registry} (h : RegInv reg)
    (hashF : String → String) (now : Nat) (sid tok : String)
    (hsid : sid ∉ mapKeys reg.sessionsById)
    (hhash : hashF tok ∉ mapKeys reg.sessionIdByRefreshTokenHash)
    (hne : hashF tok ≠ "") :
    RegInv (createSession hashF now sid tok reg).1 := by
  have hC := regInv_cleanup h now
  have hsidC : sid ∉ mapKeys (cleanupExpiredSessions now reg).sessionsById :=
    fun hk => hsid ((cleanup_keys_subset now reg).1 sid hk)
  have hhashC : hashF tok ∉
      mapKeys (cleanupExpiredSessions now reg).sessionIdByRefreshTokenHash :=
    fun hk => hhash ((cleanup_keys_subset now reg).2 _ hk)
  by_cases hcap : maxSessions ≤
      (cleanupExpiredSessions now reg).sessionsById.length
  · simpa [createSession, if_pos hcap] using hC
  · obtain ⟨c1, c2, c3, c4⟩ := hC
    simp only [createSession, if_neg hcap]
    refine ⟨mapKeys_set_nodup _ c1, mapKeys_set_nodup _ c2, ?_, ?_⟩
    · intro p hp
      rcases mem_mapSet_elim c1 hp with hp | ⟨hpm, hpne⟩
      · subst hp
        exact ⟨hne, mapGet_set_self _ _ _⟩
      · obtain ⟨pne, prev⟩ := c3 p hpm
        refine ⟨pne, ?_⟩
        have hmem : p.2.refreshTokenHash ∈ mapKeys
            (cleanupExpiredSessions now reg).sessionIdByRefreshTokenHash :=
          mapGet_isSome_iff.mp (by simp [prev])
        rw [mapGet_set_ne _ _ (fun he => hhashC (by rw [he]; exact hmem))]
        exact prev
    · intro q hq
      rw [mapSet_of_not_mem _ hhashC, List.mem_append,
        List.mem_singleton] at hq
      rcases hq with hq | hq
      · obtain ⟨s', hs', hh⟩ := c4 q hq
        have hmem : q.2 ∈ mapKeys
            (cleanupExpiredSessions now reg).sessionsById :=
          mapGet_isSome_iff.mp (by simp [hs'])
        refine ⟨s', ?_, hh⟩
        rw [mapGet_set_ne _ _ (fun he => hsidC (by rw [he]; exact hmem))]
        exact hs'
      · subst hq
        exact ⟨_, mapGet_set_self _ _ _, rfl⟩

/-- `refreshSession` preserves the invariant when the replacement token's
hash is fresh and non-empty, and a successful rotation makes the old hash
unresolvable in the reverse index. -/
theorem regInv_refreshSession {reg : Registry} (h : RegInv reg)
    (hashF : String → String) (now : Nat) (newTok tok : String)
    (hfresh : hashF newTok ∉ mapKeys reg.sessionIdByRefreshTokenHash)
    (hne : hashF newTok ≠ "") :
    RegInv (refreshSession hashF now newTok reg tok).1 ∧
    ((refreshSession hashF now newTok reg tok).2.isSome = true →
      mapGet
        (refreshSession hashF now newTok reg tok).1.sessionIdByRefreshTokenHash
        (hashF tok) = none) := by
  obtain ⟨h1, h2, h3, h4⟩ := h
  by_cases ht : tok = ""
  · simp [refreshSession, ht]
    exact ⟨h1, h2, h3, h4⟩
  cases hR : mapGet reg.sessionIdByRefreshTokenHash (hashF tok) with
  | none =>
    simp only [refreshSession, if_neg ht, hR]
    exact ⟨⟨h1, h2, h3, h4⟩, by simp⟩
  | some sid =>
    obtain ⟨session, hF, hSH⟩ := h4 _ (mem_of_mapGet_eq_some hR)
    simp only at hF hSH
    by_cases hexp : session.refreshExpiresAt < now
    · have hinv : RegInv (invalidateSession reg sid) :=
        regInv_invalidateSession ⟨h1, h2, h3, h4⟩ sid
      have hsne : session.refreshTokenHash ≠ "" :=
        (h3 _ (mem_of_mapGet_eq_some hF)).1
      have heq : invalidateSession reg sid =
          { sessionsById := mapDelete reg.sessionsById sid,
            sessionIdByRefreshTokenHash :=
              mapDelete reg.sessionIdByRefreshTokenHash (hashF tok) } := by
        simp only [invalidateSession, hF]
        rw [if_pos hsne, hSH]
      simp only [refreshSession, if_neg ht, hR, hF, if_pos hexp]
      rw [← heq]
      exact ⟨hinv, by simp⟩
    · simp only [refreshSession, if_neg ht, hR, hF, if_neg hexp]
      have hSmem : (sid, session) ∈ reg.sessionsById := mem_of_mapGet_eq_some hF
      have hsesh := h3 _ hSmem
      have hRmem : hashF tok ∈ mapKeys reg.sessionIdByRefreshTokenHash :=
        mapGet_isSome_iff.mp (by simp [hR])
      have hnewne : hashF newTok ≠ hashF tok := fun he => hfresh (he ▸ hRmem)
      have hfreshD : hashF newTok ∉
          mapKeys (mapDelete reg.sessionIdByRefreshTokenHash (hashF tok)) :=
        fun hk => hfresh (mem_mapKeys_delete hk)
      constructor
      · refine ⟨by rw [mapKeys_set_of_mem _ (fst_mem_mapKeys hSmem)]; exact h1,
          mapKeys_set_nodup _ (mapKeys_delete_nodup _ h2), ?_, ?_⟩
        · intro p hp
          rcases mem_mapSet_elim h1 hp with hp | ⟨hpm, hpne⟩
          · subst hp
            exact ⟨hne, mapGet_set_self _ _ _⟩
          · obtain ⟨pne, prev⟩ := h3 p hpm
            refine ⟨pne, ?_⟩
            have hph : p.2.refreshTokenHash ≠ hashF tok := by
              intro he
              rw [he] at prev
              exact hpne (Option.some.inj (prev.symm.trans hR))
            have hpm2 : p.2.refreshTokenHash ∈
                mapKeys reg.sessionIdByRefreshTokenHash :=
              mapGet_isSome_iff.mp (by simp [prev])
            rw [mapGet_set_ne _ _ (fun he => hfresh (by rw [he]; exact hpm2)),
              mapGet_delete_ne _ (Ne.symm hph)]
            exact prev
        · intro q hq
          rw [mapSet_of_not_mem _ hfreshD, List.mem_append,
            List.mem_singleton] at hq
          rcases hq with hq | hq
          · obtain ⟨hqm, hqne⟩ := mem_of_mem_mapDelete hq
            obtain ⟨s', hs', hh⟩ := h4 q hqm
            have hq2 : q.2 ≠ sid := by
              intro he
              rw [he, hF] at hs'
              cases Option.some.inj hs'
              exact hqne (hh.symm.trans hSH)
            refine ⟨s', ?_, hh⟩
            rw [mapGet_set_ne _ _ (Ne.symm hq2)]
            exact hs'
          · subst hq
            exact ⟨_, mapGet_set_self _ _ _, rfl⟩
      · intro _
        rw [mapGet_set_ne _ _ hnewne, mapGet_delete_self]

/-- C8: in every state satisfying the registry invariant (duplicate-free
maps whose reverse index is exactly the inverse of the forward map's hash
fields), the stored refresh token hashes are pairwise distinct, and every
operation — createSession, refreshSession, invalidateSession,
invalidateSessionByRefreshToken, invalidateAllSessions,
cleanupExpiredSessions — preserves the invariant (create and refresh under
freshness of the randomly generated id and token hash); moreover a
successful rotation leaves the old hash unresolvable in the reverse index,
which the code guarantees by deleting it before installing the new one. -/
theorem c8_registry_invariant :
    ∀ reg : Registry, RegInv reg →
      (reg.sessionsById.map (fun p => p.2.refreshTokenHash)).Nodup ∧
      (∀ (hashF : String → String) (now : Nat) (sid tok : String),
        sid ∉ mapKeys reg.sessionsById →
        hashF tok ∉ mapKeys reg.sessionIdByRefreshTokenHash →
        hashF tok ≠ "" →
        RegInv (createSession hashF now sid tok reg).1) ∧
      (∀ (hashF : String → String) (now : Nat) (newTok tok : String),
        hashF newTok ∉ mapKeys reg.sessionIdByRefreshTokenHash →
        hashF newTok ≠ "" →
        RegInv (refreshSession hashF now newTok reg tok).1 ∧
        ((refreshSession hashF now newTok reg tok).2.isSome = true →
          mapGet
            (refreshSession hashF now newTok
              reg tok).1.sessionIdByRefreshTokenHash
            (hashF tok) = none)) ∧
      (∀ sid, RegInv (invalidateSession reg sid)) ∧
      (∀ (hashF : String → String) (tok : String),
        RegInv (invalidateSessionByRefreshToken hashF reg tok)) ∧
      (∀ e, RegInv (invalidateAllSessions reg e)) ∧
      (∀ now, RegInv (cleanupExpiredSessions now reg)) := by
  intro reg h
  exact ⟨hashes_nodup_of_regInv h,
    fun hashF now sid tok h1 h2 h3 =>
      regInv_createSession h hashF now sid tok h1 h2 h3,
    fun hashF now newTok tok h1 h2 =>
      regInv_refreshSession h hashF now newTok tok h1 h2,
    fun sid => regInv_invalidateSession h sid,
    fun hashF tok => regInv_invalidateByToken h hashF tok,
    fun e => regInv_invalidateAll h e,
    fun now => regInv_cleanup h now⟩

/-- C8 witness: the one-session registry satisfies the invariant and the
theorem yields both the hash uniqueness and the preservation under a
concrete invalidation. -/
theorem c8_registry_invariant_witness :
    (oneSessionRegistry.sessionsById.map
      (fun p => p.2.refreshTokenHash)).Nodup ∧
    RegInv (invalidateSession oneSessionRegistry "sid") := by
  have hInv : RegInv oneSessionRegistry := by
    refine ⟨by simp [oneSessionRegistry, mapKeys],
      by simp [oneSessionRegistry, mapKeys], ?_, ?_⟩
    · intro p hp
      simp only [oneSessionRegistry, List.mem_singleton] at hp
      subst hp
      exact ⟨by decide, by simp [mapGet]⟩
    · intro q hq
      simp only [oneSessionRegistry, List.mem_singleton] at hq
      subst hq
      refine ⟨{ refreshTokenHash := "#old", issuedAt := 0, refreshExpiresAt := 100 }, ?_, rfl⟩
      simp [oneSessionRegistry, mapGet]
  have h := c8_registry_invariant oneSessionRegistry hInv
  exact ⟨h.1, h.2.2.2.1 "sid"⟩

end Switchboard
